import Mathlib

/-!
Verification of the fixed-width arithmetic and tick/liquidity/fee engine of
the pyuv3 repository, as a shallow embedding in Lean.

A Python `FlowInt` object is modelled by its underlying arbitrary-precision
integer (`Int`) together with the explicit bit width (`Nat`) carried as a
parameter of every operation.  Fallible Python code (constructor `assert`
failures, `KeyError`, `ZeroDivisionError`) is modelled with `Except String`.
Python `//` on ints is floor division, modelled by `Int.fdiv`; Python `%`
with a positive modulus and Python `&` with an all-ones mask `2^b - 1` both
produce the canonical non-negative residue, modelled by `Int.emod` (`%` on
`Int` in Lean).
-/

/-- Source: flowint.py, `FlowInt.__init__`, `self.two_pow = 2 ** num_bits`. -/
def two_pow (num_bits : Nat) : Int := 2 ^ num_bits

/-- Source: flowint.py line 29, `-self.two_pow // 2` (Python floor division). -/
def min_signed_neg (num_bits : Nat) : Int := Int.fdiv (-(two_pow num_bits)) 2

/-- Source: flowint.py line 29, `(self.two_pow // 2) - 1`. -/
def max_signed_pos (num_bits : Nat) : Int := Int.fdiv (two_pow num_bits) 2 - 1

/-- Source: flowint.py, `FlowInt.__init__` (lines 14-34).  The two `assert`
statements checking `self.num in range(...)` are modelled by returning
`Except.error "OutOfRange"` when the value is outside the representable
interval, and `Except.ok num` (the stored value) otherwise. -/
def flowint_init (num : Int) (is_signed : Bool) (num_bits : Nat) : Except String Int :=
  if is_signed then
    if min_signed_neg num_bits ≤ num ∧ num ≤ max_signed_pos num_bits then Except.ok num
    else Except.error "OutOfRange"
  else
    if 0 ≤ num ∧ num < two_pow num_bits then Except.ok num
    else Except.error "OutOfRange"

/-- Source: flowint.py, `IFlow.__init__`: `super().__init__(num, is_signed=True, ...)`. -/
def iflow_init (num : Int) (num_bits : Nat) : Except String Int :=
  flowint_init num true num_bits

/-- Source: flowint.py, `UFlow.__init__`: `super().__init__(num, is_signed=False, ...)`. -/
def uflow_init (num : Int) (num_bits : Nat) : Except String Int :=
  flowint_init num false num_bits

/-- Source: flowint.py, `IFlow.__add__` (lines 65-71). -/
def iflow_add (num_bits : Nat) (x y : Int) : Except String Int :=
  let result := x + y
  if result > max_signed_pos num_bits then iflow_init (result - two_pow num_bits) num_bits
  else if result < min_signed_neg num_bits then iflow_init (result + two_pow num_bits) num_bits
  else iflow_init result num_bits

/-- Source: flowint.py, `IFlow.__sub__` (lines 73-79). -/
def iflow_sub (num_bits : Nat) (x y : Int) : Except String Int :=
  let result := x - y
  if result > max_signed_pos num_bits then iflow_init (result - two_pow num_bits) num_bits
  else if result < min_signed_neg num_bits then iflow_init (result + two_pow num_bits) num_bits
  else iflow_init result num_bits

/-- Source: flowint.py, `IFlow.__mul__` (lines 81-87).  Python `result % self.two_pow`
with positive modulus is `Int.emod`; Python `abs` is `|·|`. -/
def iflow_mul (num_bits : Nat) (x y : Int) : Except String Int :=
  let result := x * y
  if result > max_signed_pos num_bits then iflow_init (result % two_pow num_bits) num_bits
  else if result < min_signed_neg num_bits then iflow_init (-(|result| % two_pow num_bits)) num_bits
  else iflow_init result num_bits

/-- Source: flowint.py, `IFlow.__truediv__` (lines 89-91): `self.num // o.num`
(Python floor division).  A zero divisor raises `ZeroDivisionError` in Python,
modelled as `Except.error "DivisionByZero"`. -/
def iflow_div (num_bits : Nat) (x y : Int) : Except String Int :=
  if y = 0 then Except.error "DivisionByZero"
  else iflow_init (Int.fdiv x y) num_bits

/-- Source: flowint.py, `UFlow.__add__` (lines 106-108): `(self.num + o.num) & self.mask`
with `mask = 2 ** num_bits - 1`; on Python ints this equals reduction mod `2^num_bits`. -/
def uflow_add (num_bits : Nat) (x y : Int) : Except String Int :=
  uflow_init ((x + y) % two_pow num_bits) num_bits

/-- Source: flowint.py, `UFlow.__sub__` (lines 110-112): `(self.num - o.num) & self.mask`. -/
def uflow_sub (num_bits : Nat) (x y : Int) : Except String Int :=
  uflow_init ((x - y) % two_pow num_bits) num_bits

/-- Source: flowint.py, `UFlow.__mul__` (lines 114-116): `(self.num * o.num) & self.mask`. -/
def uflow_mul (num_bits : Nat) (x y : Int) : Except String Int :=
  uflow_init ((x * y) % two_pow num_bits) num_bits

/-- Source: flowint.py, `UFlow.__truediv__` (lines 118-120): `(self.num // o.num) & self.mask`. -/
def uflow_div (num_bits : Nat) (x y : Int) : Except String Int :=
  if y = 0 then Except.error "DivisionByZero"
  else uflow_init ((Int.fdiv x y) % two_pow num_bits) num_bits

/-- Source: base.py, `calc_fee_tier_tick_spacing` (lines 62-71): a Python dict
lookup `{500: 10, 3000: 60, 10000: 200}[int(fee_tier)]`; a missing key raises
`KeyError`, modelled as `Except.error "UnknownFeeTier"`. -/
def calc_fee_tier_tick_spacing (fee_tier : Int) : Except String Int :=
  if fee_tier = 500 then Except.ok 10
  else if fee_tier = 3000 then Except.ok 60
  else if fee_tier = 10000 then Except.ok 200
  else Except.error "UnknownFeeTier"

/-- Source: pool.py, `UniswapV3Pool.calc_liq_net` (lines 106-121).  `liq` is the
integer of a `UFlow128`, `dliq` the integer of an `IFlow128`.  The two
`assert` statements guarded by `is_allow_overflow` carry the messages
`'LS'` and `'LA'` in the source. -/
def calc_liq_net (liq dliq : Int) (is_allow_overflow : Bool) : Except String Int :=
  if dliq < 0 then do
    let d ← uflow_init (-dliq) 128
    let new_liq ← uflow_sub 128 liq d
    if ¬is_allow_overflow ∧ ¬(new_liq < liq) then Except.error "LS" else pure new_liq
  else do
    let d ← uflow_init dliq 128
    let new_liq ← uflow_add 128 liq d
    if ¬is_allow_overflow ∧ ¬(new_liq ≥ liq) then Except.error "LA" else pure new_liq

/-- Insertion of a (tick index, liquidity delta) pair into a list sorted by
ascending tick index; models the iteration order `sorted(list(self.ticks))`
of pool.py line 131. -/
def insert_tick (x : Int × Int) : List (Int × Int) → List (Int × Int)
  | [] => [x]
  | y :: ys => if x.1 ≤ y.1 then x :: y :: ys else y :: insert_tick x ys

/-- Sorting the tick map by ascending tick index (pool.py line 131). -/
def sort_ticks : List (Int × Int) → List (Int × Int)
  | [] => []
  | x :: xs => insert_tick x (sort_ticks xs)

/-- The loop body of pool.py `get_liq_dist` (lines 129-136): fold over the
sorted ticks, skipping zero deltas, threading the running liquidity through
`calc_liq_net` (with the default `is_allow_overflow=True`) and recording the
running total at each tick that changed it.  Returns the final running
liquidity and the recorded entries in iteration order. -/
def liq_fold (liq : Int) : List (Int × Int) → Except String (Int × List (Int × Int))
  | [] => Except.ok (liq, [])
  | (t, d) :: rest =>
    if d = 0 then liq_fold liq rest
    else do
      let liq' ← calc_liq_net liq d true
      let (fin, entries) ← liq_fold liq' rest
      Except.ok (fin, (t, liq') :: entries)

/-- Source: pool.py, `UniswapV3Pool.get_liq_dist` (lines 123-138).  The final
`assert liq == UFlow128(0)` is modelled by the trailing zero check, with the
data-integrity error named as in the spec. -/
def get_liq_dist (ticks : List (Int × Int)) : Except String (List (Int × Int)) := do
  let (fin, entries) ← liq_fold 0 (sort_ticks ticks)
  if fin = 0 then Except.ok entries else Except.error "DistributionDidNotNetToZero"

/-- The sum of the liquidity deltas of a tick map. -/
def sum_dliq (ticks : List (Int × Int)) : Int := (ticks.map Prod.snd).sum

/-- Claim-side description of the recorded liquidity distribution: skip zero
deltas, and at every other tick record the 128-bit wrapped running total. -/
def dist_entries (liq : Int) : List (Int × Int) → List (Int × Int)
  | [] => []
  | (t, d) :: rest =>
    if d = 0 then dist_entries liq rest
    else (t, (liq + d) % two_pow 128) :: dist_entries ((liq + d) % two_pow 128) rest

/-- The six 256-bit intermediate fee-growth values computed by pos.py
`calc_fees` (lines 73-94) for the two tokens of a pool. -/
structure FeeGrowth where
  above0 : Int
  above1 : Int
  below0 : Int
  below1 : Int
  fr0 : Int
  fr1 : Int
deriving Repr, DecidableEq

/-- Source: pos.py, `UniswapV3Position.calc_fees`, lines 60-94: the integer
core of the fee computation.  The six raw accumulator arguments are wrapped
into `UFlow(..., num_bits=256)` objects (lines 60-69), the fee growth above
the upper tick and below the lower tick are selected by the two tick
comparisons (lines 77-90), and the in-range fee growth per token is the
two sequential 256-bit wrap subtractions of line 93-94.  The remainder of
the Python function (lines 97-106) converts to floating point and is outside
this integer model. -/
def calc_fees_growth (current_tick min_tick max_tick : Int)
    (global_fee_growth0x128 global_fee_growth1x128 : Int)
    (min_tick_fee_growth_outside0x128 min_tick_fee_growth_outside1x128 : Int)
    (max_tick_fee_growth_outside0x128 max_tick_fee_growth_outside1x128 : Int) :
    Except String FeeGrowth := do
  let global_fee_growth0 ← uflow_init global_fee_growth0x128 256
  let global_fee_growth1 ← uflow_init global_fee_growth1x128 256
  let min_tick_fee_growth_outside0 ← uflow_init min_tick_fee_growth_outside0x128 256
  let min_tick_fee_growth_outside1 ← uflow_init min_tick_fee_growth_outside1x128 256
  let max_tick_fee_growth_outside0 ← uflow_init max_tick_fee_growth_outside0x128 256
  let max_tick_fee_growth_outside1 ← uflow_init max_tick_fee_growth_outside1x128 256
  let p1 ←
    if current_tick ≥ max_tick then do
      let a0 ← uflow_sub 256 global_fee_growth0 max_tick_fee_growth_outside0
      let a1 ← uflow_sub 256 global_fee_growth1 max_tick_fee_growth_outside1
      pure (a0, a1)
    else
      pure (max_tick_fee_growth_outside0, max_tick_fee_growth_outside1)
  let p2 ←
    if current_tick ≥ min_tick then
      pure (min_tick_fee_growth_outside0, min_tick_fee_growth_outside1)
    else do
      let b0 ← uflow_sub 256 global_fee_growth0 min_tick_fee_growth_outside0
      let b1 ← uflow_sub 256 global_fee_growth1 min_tick_fee_growth_outside1
      pure (b0, b1)
  let t0 ← uflow_sub 256 global_fee_growth0 p2.1
  let fr_t1_0 ← uflow_sub 256 t0 p1.1
  let t1 ← uflow_sub 256 global_fee_growth1 p2.2
  let fr_t1_1 ← uflow_sub 256 t1 p1.2
  Except.ok ⟨p1.1, p1.2, p2.1, p2.2, fr_t1_0, fr_t1_1⟩

-- Basic facts about the embedded arithmetic, shared by several proofs below.

theorem two_pow_pos (b : Nat) : 0 < two_pow b := by
  unfold two_pow
  positivity

theorem two_pow_ne_zero (b : Nat) : two_pow b ≠ 0 :=
  ne_of_gt (two_pow_pos b)

theorem min_signed_neg_eq (b : Nat) (hb : 1 ≤ b) :
    min_signed_neg b = -(2 ^ (b - 1) : Int) := by
  obtain ⟨c, rfl⟩ : ∃ c, b = c + 1 := ⟨b - 1, (Nat.succ_pred_eq_of_pos hb).symm⟩
  unfold min_signed_neg two_pow
  rw [pow_succ, ← neg_mul, Int.mul_fdiv_cancel _ (by norm_num)]
  simp

theorem max_signed_pos_eq (b : Nat) (hb : 1 ≤ b) :
    max_signed_pos b = (2 ^ (b - 1) : Int) - 1 := by
  obtain ⟨c, rfl⟩ : ∃ c, b = c + 1 := ⟨b - 1, (Nat.succ_pred_eq_of_pos hb).symm⟩
  unfold max_signed_pos two_pow
  rw [pow_succ, Int.mul_fdiv_cancel _ (by norm_num)]
  simp

theorem uflow_init_ok {b : Nat} {v : Int} (h1 : 0 ≤ v) (h2 : v < two_pow b) :
    uflow_init v b = Except.ok v := by
  simp [uflow_init, flowint_init, h1, h2]

theorem iflow_init_ok {b : Nat} {v : Int} (h1 : min_signed_neg b ≤ v)
    (h2 : v ≤ max_signed_pos b) : iflow_init v b = Except.ok v := by
  simp [iflow_init, flowint_init, h1, h2]

theorem emod_two_pow_nonneg (b : Nat) (v : Int) : 0 ≤ v % two_pow b :=
  Int.emod_nonneg v (two_pow_ne_zero b)

theorem emod_two_pow_lt (b : Nat) (v : Int) : v % two_pow b < two_pow b :=
  Int.emod_lt_of_pos v (two_pow_pos b)

theorem uflow_add_eq (b : Nat) (x y : Int) :
    uflow_add b x y = Except.ok ((x + y) % two_pow b) :=
  uflow_init_ok (emod_two_pow_nonneg b _) (emod_two_pow_lt b _)

theorem uflow_sub_eq (b : Nat) (x y : Int) :
    uflow_sub b x y = Except.ok ((x - y) % two_pow b) :=
  uflow_init_ok (emod_two_pow_nonneg b _) (emod_two_pow_lt b _)

theorem uflow_mul_eq (b : Nat) (x y : Int) :
    uflow_mul b x y = Except.ok ((x * y) % two_pow b) :=
  uflow_init_ok (emod_two_pow_nonneg b _) (emod_two_pow_lt b _)

theorem except_ok_bind {α β : Type} (a : α) (f : α → Except String β) :
    (Except.ok a >>= f : Except String β) = f a := rfl

theorem pow127_lt_pow128 : (2 : Int) ^ 127 < 2 ^ 128 := by norm_num

theorem calc_liq_net_allow {liq dliq : Int}
    (h3 : min_signed_neg 128 ≤ dliq) (h4 : dliq ≤ max_signed_pos 128) :
    calc_liq_net liq dliq true = Except.ok ((liq + dliq) % two_pow 128) := by
  have hmin : min_signed_neg 128 = -(2 ^ 127 : Int) := min_signed_neg_eq 128 (by norm_num)
  have hmax : max_signed_pos 128 = (2 ^ 127 : Int) - 1 := max_signed_pos_eq 128 (by norm_num)
  have htp : two_pow 128 = (2 : Int) ^ 128 := rfl
  by_cases hd : dliq < 0
  · have hinit : uflow_init (-dliq) 128 = Except.ok (-dliq) := by
      apply uflow_init_ok (by omega)
      rw [htp]
      rw [hmin] at h3
      calc -dliq ≤ 2 ^ 127 := by omega
        _ < 2 ^ 128 := pow127_lt_pow128
    rw [calc_liq_net, if_pos hd, hinit, except_ok_bind, uflow_sub_eq, except_ok_bind]
    simp [sub_neg_eq_add]
    rfl
  · have hinit : uflow_init dliq 128 = Except.ok dliq := by
      apply uflow_init_ok (by omega)
      rw [htp]
      rw [hmax] at h4
      calc dliq ≤ 2 ^ 127 - 1 := h4
        _ < 2 ^ 128 := by have := pow127_lt_pow128; omega
    rw [calc_liq_net, if_neg hd, hinit, except_ok_bind, uflow_add_eq, except_ok_bind]
    simp
    rfl

theorem calc_liq_net_strict_sub {liq dliq : Int} (hd : dliq < 0)
    (hd1 : min_signed_neg 128 ≤ dliq) :
    calc_liq_net liq dliq false =
      (if (liq - (-dliq)) % two_pow 128 < liq
       then Except.ok ((liq - (-dliq)) % two_pow 128)
       else Except.error "LS") := by
  have hmin : min_signed_neg 128 = -(2 ^ 127 : Int) := min_signed_neg_eq 128 (by norm_num)
  have hinit : uflow_init (-dliq) 128 = Except.ok (-dliq) := by
    apply uflow_init_ok (by omega)
    show -dliq < (2 : Int) ^ 128
    rw [hmin] at hd1
    have := pow127_lt_pow128
    omega
  rw [calc_liq_net, if_pos hd, hinit, except_ok_bind, uflow_sub_eq, except_ok_bind]
  by_cases h : (liq - -dliq) % two_pow 128 < liq
  · rw [if_neg (fun hc => hc.2 h), if_pos h]
    rfl
  · rw [if_pos ⟨by simp, h⟩, if_neg h]

theorem calc_liq_net_strict_add {liq dliq : Int} (hd : ¬dliq < 0)
    (hd2 : dliq ≤ max_signed_pos 128) :
    calc_liq_net liq dliq false =
      (if liq ≤ (liq + dliq) % two_pow 128
       then Except.ok ((liq + dliq) % two_pow 128)
       else Except.error "LA") := by
  have hmax : max_signed_pos 128 = (2 ^ 127 : Int) - 1 := max_signed_pos_eq 128 (by norm_num)
  have hinit : uflow_init dliq 128 = Except.ok dliq := by
    apply uflow_init_ok (by omega)
    show dliq < (2 : Int) ^ 128
    rw [hmax] at hd2
    have := pow127_lt_pow128
    omega
  rw [calc_liq_net, if_neg hd, hinit, except_ok_bind, uflow_add_eq, except_ok_bind]
  by_cases h : liq ≤ (liq + dliq) % two_pow 128
  · rw [if_neg (by simp [h]), if_pos h]
    rfl
  · rw [if_pos ⟨by simp, fun hh => h hh⟩, if_neg h]

/-- C1: for an unsigned 128-bit `liq` and signed 128-bit `dliq`, `calc_liq_net`
returns `liq - (-dliq)` under 128-bit wrap subtraction when `dliq < 0` and
`liq + dliq` under 128-bit wrap addition when `dliq >= 0`; with
`is_allow_overflow = false` it fails with the subtract-overflow error exactly
when the wrapped subtraction result is not strictly below `liq`, and with the
add-overflow error exactly when the wrapped addition result is not at least
`liq`; in particular `calc_liq_net (2^128 - 2) 1 = 2^128 - 1` and
`calc_liq_net 123 123 = 246`. -/
theorem c1_calc_liq_net (liq dliq : Int)
    (_hl1 : 0 ≤ liq) (_hl2 : liq < two_pow 128)
    (hd1 : min_signed_neg 128 ≤ dliq) (hd2 : dliq ≤ max_signed_pos 128) :
    (dliq < 0 →
      calc_liq_net liq dliq true = Except.ok ((liq - (-dliq)) % two_pow 128) ∧
      calc_liq_net liq dliq false =
        (if (liq - (-dliq)) % two_pow 128 < liq
         then Except.ok ((liq - (-dliq)) % two_pow 128)
         else Except.error "LS")) ∧
    (0 ≤ dliq →
      calc_liq_net liq dliq true = Except.ok ((liq + dliq) % two_pow 128) ∧
      calc_liq_net liq dliq false =
        (if liq ≤ (liq + dliq) % two_pow 128
         then Except.ok ((liq + dliq) % two_pow 128)
         else Except.error "LA")) ∧
    calc_liq_net (two_pow 128 - 2) 1 true = Except.ok (two_pow 128 - 1) ∧
    calc_liq_net 123 123 true = Except.ok 246 := by
  refine ⟨fun hd => ⟨?_, calc_liq_net_strict_sub hd hd1⟩,
          fun hd => ⟨?_, calc_liq_net_strict_add (by omega) hd2⟩, ?_, ?_⟩
  · rw [calc_liq_net_allow hd1 hd2, sub_neg_eq_add]
  · exact calc_liq_net_allow hd1 hd2
  · have h1 : min_signed_neg 128 ≤ (1 : Int) := by
      rw [min_signed_neg_eq 128 (by norm_num)]; norm_num
    have h2 : (1 : Int) ≤ max_signed_pos 128 := by
      rw [max_signed_pos_eq 128 (by norm_num)]; norm_num
    rw [calc_liq_net_allow h1 h2]
    have htp : two_pow 128 = (2 : Int) ^ 128 := rfl
    rw [htp]
    have he : ((2:Int)^128 - 2 + 1) = 2^128 - 1 := by norm_num
    rw [he, Int.emod_eq_of_lt (by norm_num) (by norm_num)]
  · have h1 : min_signed_neg 128 ≤ (123 : Int) := by
      rw [min_signed_neg_eq 128 (by norm_num)]; norm_num
    have h2 : (123 : Int) ≤ max_signed_pos 128 := by
      rw [max_signed_pos_eq 128 (by norm_num)]; norm_num
    rw [calc_liq_net_allow h1 h2]
    have htp : two_pow 128 = (2 : Int) ^ 128 := rfl
    rw [htp]
    have he : ((123:Int) + 123) = 246 := by norm_num
    rw [he, Int.emod_eq_of_lt (by norm_num) (by norm_num)]

/-- C1 witness: the theorem applied at the concrete inputs of the claim. -/
theorem c1_calc_liq_net_witness :
    calc_liq_net 123 123 true = Except.ok 246 :=
  (c1_calc_liq_net 123 123 (by norm_num) (by norm_num [two_pow])
    (by rw [min_signed_neg_eq 128 (by norm_num)]; norm_num)
    (by rw [max_signed_pos_eq 128 (by norm_num)]; norm_num)).2.2.2

/-- C9: the fee-tier lookup returns exactly 10, 60 and 200 for the fee tiers
500, 3000 and 10000, and fails with the unknown-fee-tier error on every other
input. -/
theorem c9_calc_fee_tier_tick_spacing :
    calc_fee_tier_tick_spacing 500 = Except.ok 10 ∧
    calc_fee_tier_tick_spacing 3000 = Except.ok 60 ∧
    calc_fee_tier_tick_spacing 10000 = Except.ok 200 ∧
    ∀ fee_tier : Int, fee_tier ≠ 500 → fee_tier ≠ 3000 → fee_tier ≠ 10000 →
      calc_fee_tier_tick_spacing fee_tier = Except.error "UnknownFeeTier" := by
  refine ⟨rfl, rfl, rfl, fun ft h1 h2 h3 => ?_⟩
  rw [calc_fee_tier_tick_spacing, if_neg h1, if_neg h2, if_neg h3]

/-- C9 witness: the lookup fails on the fee tier 400. -/
theorem c9_calc_fee_tier_tick_spacing_witness :
    calc_fee_tier_tick_spacing 400 = Except.error "UnknownFeeTier" :=
  c9_calc_fee_tier_tick_spacing.2.2.2 400 (by norm_num) (by norm_num) (by norm_num)

/-- C7: for every positive bit width and signedness flag, construction succeeds
and stores exactly the given value when it lies in the representable interval
(unsigned `[0, 2^b)`, signed `[-2^(b-1), 2^(b-1)-1]`), and fails with the
out-of-range error exactly when it lies outside. -/
theorem c7_flowint_init_range (num_bits : Nat) (is_signed : Bool) (v : Int)
    (hb : 1 ≤ num_bits) :
    (flowint_init v is_signed num_bits = Except.ok v ↔
      (if is_signed then -(2 ^ (num_bits - 1) : Int) ≤ v ∧ v ≤ 2 ^ (num_bits - 1) - 1
       else 0 ≤ v ∧ v < 2 ^ num_bits)) ∧
    (flowint_init v is_signed num_bits = Except.error "OutOfRange" ↔
      ¬(if is_signed then -(2 ^ (num_bits - 1) : Int) ≤ v ∧ v ≤ 2 ^ (num_bits - 1) - 1
        else 0 ≤ v ∧ v < 2 ^ num_bits)) := by
  have htp : two_pow num_bits = (2 : Int) ^ num_bits := rfl
  cases is_signed
  · constructor
    · constructor
      · intro h
        rw [flowint_init] at h
        simp only [Bool.false_eq_true, if_false] at h
        by_cases hc : 0 ≤ v ∧ v < two_pow num_bits
        · simpa [htp] using hc
        · rw [if_neg hc] at h
          exact absurd h (by simp)
      · intro h
        simp only [if_false] at h
        rw [flowint_init]
        simp only [Bool.false_eq_true, if_false]
        rw [if_pos (by rw [htp]; exact h)]
    · constructor
      · intro h
        rw [flowint_init] at h
        simp only [Bool.false_eq_true, if_false] at h
        by_cases hc : 0 ≤ v ∧ v < two_pow num_bits
        · rw [if_pos hc] at h
          exact absurd h (by simp)
        · simpa [htp] using hc
      · intro h
        simp only [if_false] at h
        rw [flowint_init]
        simp only [Bool.false_eq_true, if_false]
        rw [if_neg (by rw [htp]; exact h)]
  · have hmin := min_signed_neg_eq num_bits hb
    have hmax := max_signed_pos_eq num_bits hb
    constructor
    · constructor
      · intro h
        rw [flowint_init] at h
        simp only [if_true] at h
        by_cases hc : min_signed_neg num_bits ≤ v ∧ v ≤ max_signed_pos num_bits
        · simpa [hmin, hmax] using hc
        · rw [if_neg hc] at h
          exact absurd h (by simp)
      · intro h
        simp only [if_true] at h
        rw [flowint_init]
        simp only [if_true]
        rw [if_pos (by rw [hmin, hmax]; exact h)]
    · constructor
      · intro h
        rw [flowint_init] at h
        simp only [if_true] at h
        by_cases hc : min_signed_neg num_bits ≤ v ∧ v ≤ max_signed_pos num_bits
        · rw [if_pos hc] at h
          exact absurd h (by simp)
        · simpa [hmin, hmax] using hc
      · intro h
        simp only [if_true] at h
        rw [flowint_init]
        simp only [if_true]
        rw [if_neg (by rw [hmin, hmax]; exact h)]

/-- C7 witness: an in-range signed construction at width 8 stores its value. -/
theorem c7_flowint_init_range_witness :
    flowint_init (-5) true 8 = Except.ok (-5) :=
  (c7_flowint_init_range 8 true (-5) (by norm_num)).1.mpr (by norm_num)

/-- C8: unsigned wrapped addition, subtraction and multiplication at width `b`
return the operands' sum, difference and product reduced modulo `2^b`. -/
theorem c8_uflow_modular (num_bits : Nat) (x y : Int)
    (_hx : 0 ≤ x ∧ x < 2 ^ num_bits) (_hy : 0 ≤ y ∧ y < 2 ^ num_bits) :
    uflow_add num_bits x y = Except.ok ((x + y) % 2 ^ num_bits) ∧
    uflow_sub num_bits x y = Except.ok ((x - y) % 2 ^ num_bits) ∧
    uflow_mul num_bits x y = Except.ok ((x * y) % 2 ^ num_bits) := by
  have htp : two_pow num_bits = (2 : Int) ^ num_bits := rfl
  refine ⟨?_, ?_, ?_⟩
  · rw [uflow_add_eq, htp]
  · rw [uflow_sub_eq, htp]
  · rw [uflow_mul_eq, htp]

/-- C8 witness: the three unsigned wrap laws at width 8 on 200 and 100. -/
theorem c8_uflow_modular_witness :
    uflow_add 8 200 100 = Except.ok ((200 + 100) % 2 ^ 8) ∧
    uflow_sub 8 200 100 = Except.ok ((200 - 100) % 2 ^ 8) ∧
    uflow_mul 8 200 100 = Except.ok ((200 * 100) % 2 ^ 8) :=
  c8_uflow_modular 8 200 100 (by norm_num) (by norm_num)

/-- The canonical two's complement remapping of an integer into the signed
range of a bit width: the representative of `r` modulo `2^b` lying in
`[-2^(b-1), 2^(b-1) - 1]`; residues at or above `2^(b-1)` land in the
negative half. -/
def signed_wrap (num_bits : Nat) (r : Int) : Int :=
  (r + 2 ^ (num_bits - 1)) % 2 ^ num_bits - 2 ^ (num_bits - 1)

theorem emod_in_band_mid {P a : Int} (h1 : 0 ≤ a) (h2 : a < 2 * P) :
    a % (2 * P) = a :=
  Int.emod_eq_of_lt h1 h2

theorem emod_in_band_high {P a : Int} (h1 : 2 * P ≤ a) (h2 : a < 4 * P) :
    a % (2 * P) = a - 2 * P := by
  have h3 : (a - 2 * P) + (2 * P) * 1 = a := by ring
  calc a % (2 * P) = ((a - 2 * P) + (2 * P) * 1) % (2 * P) := by rw [h3]
    _ = (a - 2 * P) % (2 * P) := Int.add_mul_emod_self_left (a - 2 * P) (2 * P) 1
    _ = a - 2 * P := Int.emod_eq_of_lt (by omega) (by omega)

theorem emod_in_band_low {P a : Int} (h1 : -(2 * P) ≤ a) (h2 : a < 0) :
    a % (2 * P) = a + 2 * P := by
  have h3 : (a + 2 * P) + (2 * P) * (-1) = a := by ring
  calc a % (2 * P) = ((a + 2 * P) + (2 * P) * (-1)) % (2 * P) := by rw [h3]
    _ = (a + 2 * P) % (2 * P) := Int.add_mul_emod_self_left (a + 2 * P) (2 * P) (-1)
    _ = a + 2 * P := Int.emod_eq_of_lt (by omega) (by omega)

theorem two_pow_eq_two_mul {b : Nat} (hb : 1 ≤ b) :
    two_pow b = 2 * 2 ^ (b - 1) := by
  obtain ⟨c, rfl⟩ : ∃ c, b = c + 1 := ⟨b - 1, (Nat.succ_pred_eq_of_pos hb).symm⟩
  rw [two_pow, pow_succ, Nat.add_sub_cancel]
  ring

/-- The common overflow-correction branch structure of `IFlow.__add__` and
`IFlow.__sub__` computes the canonical two's complement wrap whenever the raw
result lies within one width of the signed range. -/
theorem iflow_wrap_branch {b : Nat} (hb : 1 ≤ b) {r : Int}
    (hr1 : -(two_pow b) ≤ r) (hr2 : r ≤ two_pow b - 1) :
    (if r > max_signed_pos b then iflow_init (r - two_pow b) b
     else if r < min_signed_neg b then iflow_init (r + two_pow b) b
     else iflow_init r b) = Except.ok (signed_wrap b r) := by
  have hmin := min_signed_neg_eq b hb
  have hmax := max_signed_pos_eq b hb
  obtain ⟨P, hPdef, hP⟩ : ∃ P : Int, P = 2 ^ (b - 1) ∧ 0 < P := ⟨_, rfl, by positivity⟩
  rw [← hPdef] at hmin hmax
  have h2m : two_pow b = 2 * P := by rw [two_pow_eq_two_mul hb, hPdef]
  have hws : signed_wrap b r = (r + P) % (2 * P) - P := by
    rw [signed_wrap, ← hPdef]
    have : (2 : Int) ^ b = 2 * P := h2m
    rw [this]
  rw [h2m] at hr1 hr2
  by_cases hhi : r > max_signed_pos b
  · rw [if_pos hhi]
    rw [hmax] at hhi
    have hval : signed_wrap b r = r - 2 * P := by
      rw [hws, emod_in_band_high (by omega) (by omega)]
      ring
    rw [hval, h2m]
    exact iflow_init_ok (by rw [hmin]; omega) (by rw [hmax]; omega)
  · rw [if_neg hhi]
    rw [hmax] at hhi
    by_cases hlo : r < min_signed_neg b
    · rw [if_pos hlo]
      rw [hmin] at hlo
      have hval : signed_wrap b r = r + 2 * P := by
        rw [hws, emod_in_band_low (by omega) (by omega)]
        ring
      rw [hval, h2m]
      exact iflow_init_ok (by rw [hmin]; omega) (by rw [hmax]; omega)
    · rw [if_neg hlo]
      rw [hmin] at hlo
      have hval : signed_wrap b r = r := by
        rw [hws, emod_in_band_mid (by omega) (by omega)]
        ring
      rw [hval]
      exact iflow_init_ok (by rw [hmin]; omega) (by rw [hmax]; omega)

/-- C5 counterexample: signed addition at width 8 has no strict policy and
does not fail on overflow; `127 + 1` silently wraps to `-128` rather than
failing with an overflow error. -/
theorem c5_no_strict_counterexample : iflow_add 8 127 1 = Except.ok (-128) := rfl

/-- C5 (amended): `IFlow`/`UFlow` addition and subtraction carry no policy
parameter and never fail for in-range operands: the signed operations always
return the two's complement wrap of the raw result and the unsigned ones
always return it reduced modulo `2^b`; no `Overflow`/`Underflow` error exists
in these operations. -/
theorem c5_addsub_always_wrap (num_bits : Nat) (hb : 1 ≤ num_bits) (x y : Int) :
    ((min_signed_neg num_bits ≤ x ∧ x ≤ max_signed_pos num_bits) →
     (min_signed_neg num_bits ≤ y ∧ y ≤ max_signed_pos num_bits) →
      iflow_add num_bits x y = Except.ok (signed_wrap num_bits (x + y)) ∧
      iflow_sub num_bits x y = Except.ok (signed_wrap num_bits (x - y))) ∧
    uflow_add num_bits x y = Except.ok ((x + y) % 2 ^ num_bits) ∧
    uflow_sub num_bits x y = Except.ok ((x - y) % 2 ^ num_bits) := by
  have h2m := two_pow_eq_two_mul hb
  have hmin := min_signed_neg_eq num_bits hb
  have hmax := max_signed_pos_eq num_bits hb
  have hP : (0 : Int) < 2 ^ (num_bits - 1) := by positivity
  refine ⟨fun hx hy => ⟨?_, ?_⟩, by rw [uflow_add_eq]; rfl, by rw [uflow_sub_eq]; rfl⟩
  · rw [hmin, hmax] at hx hy
    show (if x + y > max_signed_pos num_bits then iflow_init (x + y - two_pow num_bits) num_bits
          else if x + y < min_signed_neg num_bits then iflow_init (x + y + two_pow num_bits) num_bits
          else iflow_init (x + y) num_bits) = Except.ok (signed_wrap num_bits (x + y))
    exact iflow_wrap_branch hb (by rw [h2m]; omega) (by rw [h2m]; omega)
  · rw [hmin, hmax] at hx hy
    show (if x - y > max_signed_pos num_bits then iflow_init (x - y - two_pow num_bits) num_bits
          else if x - y < min_signed_neg num_bits then iflow_init (x - y + two_pow num_bits) num_bits
          else iflow_init (x - y) num_bits) = Except.ok (signed_wrap num_bits (x - y))
    exact iflow_wrap_branch hb (by rw [h2m]; omega) (by rw [h2m]; omega)

/-- C5 witness: the amended claim at width 8 on 127 and 1. -/
theorem c5_addsub_always_wrap_witness :
    iflow_add 8 127 1 = Except.ok (signed_wrap 8 (127 + 1)) ∧
    iflow_sub 8 127 1 = Except.ok (signed_wrap 8 (127 - 1)) :=
  (c5_addsub_always_wrap 8 (by norm_num) 127 1).1 (by norm_num [min_signed_neg_eq 8, max_signed_pos_eq 8]) (by norm_num [min_signed_neg_eq 8, max_signed_pos_eq 8])

theorem fdiv_neg_neg : ∀ (x y : Int), Int.fdiv (-x) (-y) = Int.fdiv x y
  | Int.ofNat 0, _ => by simp
  | Int.ofNat (Nat.succ _), Int.ofNat 0 => by simp
  | Int.ofNat (Nat.succ _), Int.ofNat (Nat.succ _) => rfl
  | Int.ofNat (Nat.succ _), Int.negSucc _ => rfl
  | Int.negSucc _, Int.ofNat 0 => by simp
  | Int.negSucc _, Int.ofNat (Nat.succ _) => rfl
  | Int.negSucc _, Int.negSucc _ => rfl

/-- Floor division keeps a value of the symmetric range `[-P, P-1]` inside the
range for every nonzero divisor, except at the single corner `(-P) / (-1)`. -/
theorem fdiv_range {P x y : Int} (hP : 0 < P) (hx1 : -P ≤ x) (hx2 : x ≤ P - 1)
    (hy : y ≠ 0) (hne : ¬(x = -P ∧ y = -1)) :
    -P ≤ Int.fdiv x y ∧ Int.fdiv x y ≤ P - 1 := by
  rcases lt_or_gt_of_ne hy with hyn | hyp
  · rw [← fdiv_neg_neg x y, Int.fdiv_eq_ediv _ (by omega : (0 : Int) ≤ -y)]
    have h0 : (0 : Int) < -y := by omega
    constructor
    · rw [Int.le_ediv_iff_mul_le h0]
      nlinarith
    · have hlt : -x / -y < P := by
        rw [Int.ediv_lt_iff_lt_mul h0]
        by_cases hxP : x = -P
        · have hy1 : y ≠ -1 := fun hy1 => hne ⟨hxP, hy1⟩
          have h2y : (2 : Int) ≤ -y := by omega
          have hm : P * 2 ≤ P * (-y) := mul_le_mul_of_nonneg_left h2y hP.le
          linarith
        · have hxlt : -x ≤ P - 1 := by omega
          have hm : P * 1 ≤ P * (-y) := mul_le_mul_of_nonneg_left (by omega) hP.le
          linarith
      omega
  · rw [Int.fdiv_eq_ediv _ (le_of_lt hyp)]
    constructor
    · rw [Int.le_ediv_iff_mul_le hyp]
      nlinarith
    · have hlt : x / y < P := by
        rw [Int.ediv_lt_iff_lt_mul hyp]
        nlinarith
      omega

/-- C6 counterexample: signed division at width 8 does not truncate toward
zero; dividing -7 by 2 yields -4, not -3. -/
theorem c6_truncate_counterexample :
    iflow_div 8 (-7) 2 = Except.ok (-4) ∧ iflow_div 8 (-7) 2 ≠ Except.ok (-3) := by
  have h : iflow_div 8 (-7) 2 = Except.ok (-4) := rfl
  refine ⟨h, fun hc => ?_⟩
  rw [h] at hc
  exact absurd (Except.ok.inj hc) (by norm_num)

/-- C6 (amended): for in-range signed operands with a nonzero divisor, signed
division returns the floor of the quotient (rounding toward negative
infinity, so -7 divided by 2 yields -4), except at the single corner
`x = -2^(b-1), y = -1`, whose floor quotient `2^(b-1)` overflows the signed
range and fails the constructor's range check. -/
theorem c6_iflow_div_floor (num_bits : Nat) (hb : 1 ≤ num_bits) (x y : Int)
    (hx1 : min_signed_neg num_bits ≤ x) (hx2 : x ≤ max_signed_pos num_bits)
    (hy : y ≠ 0) (hne : ¬(x = min_signed_neg num_bits ∧ y = -1)) :
    iflow_div num_bits x y = Except.ok (Int.fdiv x y) := by
  have hmin := min_signed_neg_eq num_bits hb
  have hmax := max_signed_pos_eq num_bits hb
  have hP : (0 : Int) < 2 ^ (num_bits - 1) := by positivity
  rw [hmin] at hx1 hne
  rw [hmax] at hx2
  obtain ⟨hl, hu⟩ := fdiv_range hP hx1 hx2 hy hne
  rw [iflow_div, if_neg hy]
  exact iflow_init_ok (by rw [hmin]; exact hl) (by rw [hmax]; exact hu)

/-- C6 witness: the amended claim at width 8 on -7 and 2. -/
theorem c6_iflow_div_floor_witness :
    iflow_div 8 (-7) 2 = Except.ok (Int.fdiv (-7) 2) :=
  c6_iflow_div_floor 8 (by norm_num) (-7) 2
    (by rw [min_signed_neg_eq 8 (by norm_num)]; norm_num)
    (by rw [max_signed_pos_eq 8 (by norm_num)]; norm_num)
    (by norm_num)
    (by rw [min_signed_neg_eq 8 (by norm_num)]; norm_num)

/-- C3 (code bug evidence): at width 8 the in-range products 16 * 8 = 128 and
13 * (-10) = -130 have representable two's complement wraps (-128 and 126
respectively), but `IFlow.__mul__` reduces them sign-preservingly to 128 and
-130, both outside the signed range, so the constructor's range check fails:
the multiplication raises instead of remapping into the opposite half. -/
theorem c3_iflow_mul_code_bug :
    iflow_mul 8 16 8 = Except.error "OutOfRange" ∧
    signed_wrap 8 (16 * 8) = -128 ∧
    (min_signed_neg 8 ≤ -128 ∧ (-128 : Int) ≤ max_signed_pos 8) ∧
    iflow_mul 8 13 (-10) = Except.error "OutOfRange" ∧
    signed_wrap 8 (13 * (-10)) = 126 ∧
    (min_signed_neg 8 ≤ 126 ∧ (126 : Int) ≤ max_signed_pos 8) := by
  refine ⟨rfl, by decide, ⟨by decide, by decide⟩, rfl, by decide, by decide, by decide⟩

theorem flowint_init_ok_inv_s {v w : Int} {b : Nat}
    (h : flowint_init v true b = Except.ok w) :
    w = v ∧ min_signed_neg b ≤ v ∧ v ≤ max_signed_pos b := by
  rw [flowint_init, if_pos rfl] at h
  by_cases hc : min_signed_neg b ≤ v ∧ v ≤ max_signed_pos b
  · rw [if_pos hc] at h
    exact ⟨(Except.ok.inj h).symm, hc⟩
  · rw [if_neg hc] at h
    exact Except.noConfusion h

theorem flowint_init_ok_inv_u {v w : Int} {b : Nat}
    (h : flowint_init v false b = Except.ok w) :
    w = v ∧ 0 ≤ v ∧ v < two_pow b := by
  rw [flowint_init, if_neg (by simp)] at h
  by_cases hc : 0 ≤ v ∧ v < two_pow b
  · rw [if_pos hc] at h
    exact ⟨(Except.ok.inj h).symm, hc⟩
  · rw [if_neg hc] at h
    exact Except.noConfusion h

/-- C10: every FlowInt value successfully returned, whether by direct
construction or by any of the add, subtract, multiply or divide operations,
lies in the representable interval of its width and signedness: `[0, 2^b)`
unsigned, `[-2^(b-1), 2^(b-1)-1]` signed. -/
theorem c10_range_invariant (num_bits : Nat) (is_signed : Bool) (x y v : Int)
    (hb : 1 ≤ num_bits) :
    (flowint_init x is_signed num_bits = Except.ok v →
      (if is_signed then -(2 ^ (num_bits - 1) : Int) ≤ v ∧ v ≤ 2 ^ (num_bits - 1) - 1
       else 0 ≤ v ∧ v < 2 ^ num_bits)) ∧
    (iflow_add num_bits x y = Except.ok v →
      -(2 ^ (num_bits - 1) : Int) ≤ v ∧ v ≤ 2 ^ (num_bits - 1) - 1) ∧
    (iflow_sub num_bits x y = Except.ok v →
      -(2 ^ (num_bits - 1) : Int) ≤ v ∧ v ≤ 2 ^ (num_bits - 1) - 1) ∧
    (iflow_mul num_bits x y = Except.ok v →
      -(2 ^ (num_bits - 1) : Int) ≤ v ∧ v ≤ 2 ^ (num_bits - 1) - 1) ∧
    (iflow_div num_bits x y = Except.ok v →
      -(2 ^ (num_bits - 1) : Int) ≤ v ∧ v ≤ 2 ^ (num_bits - 1) - 1) ∧
    (uflow_add num_bits x y = Except.ok v → 0 ≤ v ∧ v < 2 ^ num_bits) ∧
    (uflow_sub num_bits x y = Except.ok v → 0 ≤ v ∧ v < 2 ^ num_bits) ∧
    (uflow_mul num_bits x y = Except.ok v → 0 ≤ v ∧ v < 2 ^ num_bits) ∧
    (uflow_div num_bits x y = Except.ok v → 0 ≤ v ∧ v < 2 ^ num_bits) := by
  have htp : two_pow num_bits = (2 : Int) ^ num_bits := rfl
  have hs : ∀ u : Int, flowint_init u true num_bits = Except.ok v →
      -(2 ^ (num_bits - 1) : Int) ≤ v ∧ v ≤ 2 ^ (num_bits - 1) - 1 := by
    intro u h
    obtain ⟨hw, h1, h2⟩ := flowint_init_ok_inv_s h
    subst hw
    rw [min_signed_neg_eq _ hb] at h1
    rw [max_signed_pos_eq _ hb] at h2
    exact ⟨h1, h2⟩
  have hu : ∀ u : Int, flowint_init u false num_bits = Except.ok v →
      0 ≤ v ∧ v < 2 ^ num_bits := by
    intro u h
    obtain ⟨hw, h1, h2⟩ := flowint_init_ok_inv_u h
    subst hw
    rw [htp] at h2
    exact ⟨h1, h2⟩
  refine ⟨?_, ?_, ?_, ?_, ?_, ?_, ?_, ?_, ?_⟩
  · intro h
    cases is_signed
    · simpa using hu x h
    · simpa using hs x h
  · intro h
    rw [iflow_add] at h
    split_ifs at h with h1 h2
    · exact hs _ h
    · exact hs _ h
    · exact hs _ h
  · intro h
    rw [iflow_sub] at h
    split_ifs at h with h1 h2
    · exact hs _ h
    · exact hs _ h
    · exact hs _ h
  · intro h
    rw [iflow_mul] at h
    split_ifs at h with h1 h2
    · exact hs _ h
    · exact hs _ h
    · exact hs _ h
  · intro h
    rw [iflow_div] at h
    split_ifs at h with h1
    exact hs _ h
  · intro h
    exact hu _ h
  · intro h
    exact hu _ h
  · intro h
    exact hu _ h
  · intro h
    rw [uflow_div] at h
    split_ifs at h with h1
    exact hu _ h

/-- C10 witness: the wrapped sum of 100 and 50 at signed width 8 is returned
successfully and lies in the signed range. -/
theorem c10_range_invariant_witness :
    iflow_add 8 100 50 = Except.ok (-106) ∧
    (-(2 ^ (8 - 1) : Int) ≤ -106 ∧ (-106 : Int) ≤ 2 ^ (8 - 1) - 1) :=
  ⟨rfl, (c10_range_invariant 8 true 100 50 (-106) (by norm_num)).2.1 rfl⟩

theorem except_pure_bind {α β : Type} (a : α) (f : α → Except String β) :
    ((pure a : Except String α) >>= f) = f a := rfl

/-- C2: for in-range 256-bit accumulators, the fee computation selects
`fee_growth_above_i` as the wrapped difference `global_i - upper_outside_i`
when `current_tick >= upper_tick` and `upper_outside_i` otherwise, selects
`fee_growth_below_i` as `lower_outside_i` when `current_tick >= lower_tick`
and the wrapped difference `global_i - lower_outside_i` otherwise, and
computes `fee_growth_range_i` by the two sequential 256-bit wrap
subtractions `global_i - below_i - above_i`. -/
theorem c2_calc_fees_growth (current_tick min_tick max_tick : Int)
    (g0 g1 lo0 lo1 uo0 uo1 : Int)
    (hg0 : 0 ≤ g0 ∧ g0 < 2 ^ 256) (hg1 : 0 ≤ g1 ∧ g1 < 2 ^ 256)
    (hlo0 : 0 ≤ lo0 ∧ lo0 < 2 ^ 256) (hlo1 : 0 ≤ lo1 ∧ lo1 < 2 ^ 256)
    (huo0 : 0 ≤ uo0 ∧ uo0 < 2 ^ 256) (huo1 : 0 ≤ uo1 ∧ uo1 < 2 ^ 256) :
    calc_fees_growth current_tick min_tick max_tick g0 g1 lo0 lo1 uo0 uo1 =
      (let above0 := if current_tick ≥ max_tick then (g0 - uo0) % 2 ^ 256 else uo0
       let above1 := if current_tick ≥ max_tick then (g1 - uo1) % 2 ^ 256 else uo1
       let below0 := if current_tick ≥ min_tick then lo0 else (g0 - lo0) % 2 ^ 256
       let below1 := if current_tick ≥ min_tick then lo1 else (g1 - lo1) % 2 ^ 256
       Except.ok
         ⟨above0, above1, below0, below1,
          ((g0 - below0) % 2 ^ 256 - above0) % 2 ^ 256,
          ((g1 - below1) % 2 ^ 256 - above1) % 2 ^ 256⟩) := by
  have htp : two_pow 256 = (2 : Int) ^ 256 := rfl
  have e0 : uflow_init g0 256 = Except.ok g0 := uflow_init_ok hg0.1 hg0.2
  have e1 : uflow_init g1 256 = Except.ok g1 := uflow_init_ok hg1.1 hg1.2
  have e2 : uflow_init lo0 256 = Except.ok lo0 := uflow_init_ok hlo0.1 hlo0.2
  have e3 : uflow_init lo1 256 = Except.ok lo1 := uflow_init_ok hlo1.1 hlo1.2
  have e4 : uflow_init uo0 256 = Except.ok uo0 := uflow_init_ok huo0.1 huo0.2
  have e5 : uflow_init uo1 256 = Except.ok uo1 := uflow_init_ok huo1.1 huo1.2
  rw [calc_fees_growth, e0, except_ok_bind, e1, except_ok_bind, e2, except_ok_bind,
    e3, except_ok_bind, e4, except_ok_bind, e5, except_ok_bind]
  by_cases hmax : current_tick ≥ max_tick <;> by_cases hmin : current_tick ≥ min_tick <;>
    simp only [hmax, hmin, if_true, if_false, ite_true, ite_false,
      eq_self_iff_true, uflow_sub_eq, except_ok_bind, except_pure_bind, htp]

/-- C2 witness: the fee-growth selection at a concrete in-range position with
the current tick between the two boundary ticks. -/
theorem c2_calc_fees_growth_witness :
    calc_fees_growth 0 (-10) 10 100 200 1 2 3 4 =
      Except.ok ⟨3, 4, 1, 2, 96, 194⟩ := by
  have h := c2_calc_fees_growth 0 (-10) 10 100 200 1 2 3 4
    (by norm_num) (by norm_num) (by norm_num) (by norm_num) (by norm_num) (by norm_num)
  rw [h]
  norm_num

theorem mem_insert_tick {x p : Int × Int} :
    ∀ {l : List (Int × Int)}, p ∈ insert_tick x l → p = x ∨ p ∈ l := by
  intro l
  induction l with
  | nil =>
    intro h
    rw [insert_tick] at h
    exact Or.inl (List.mem_singleton.mp h)
  | cons y ys ih =>
    intro h
    rw [insert_tick] at h
    by_cases hxy : x.1 ≤ y.1
    · rw [if_pos hxy] at h
      rcases List.mem_cons.mp h with rfl | h
      · exact Or.inl rfl
      · exact Or.inr h
    · rw [if_neg hxy] at h
      rcases List.mem_cons.mp h with rfl | h
      · exact Or.inr (List.mem_cons_self _ _)
      · rcases ih h with rfl | h
        · exact Or.inl rfl
        · exact Or.inr (List.mem_cons_of_mem _ h)

theorem insert_tick_pairwise {x : Int × Int} {l : List (Int × Int)}
    (h : List.Pairwise (fun a b : Int × Int => a.1 ≤ b.1) l) :
    List.Pairwise (fun a b : Int × Int => a.1 ≤ b.1) (insert_tick x l) := by
  induction l with
  | nil =>
    rw [insert_tick]
    exact List.pairwise_singleton _ _
  | cons y ys ih =>
    rw [insert_tick]
    rcases List.pairwise_cons.mp h with ⟨hy, hys⟩
    by_cases hxy : x.1 ≤ y.1
    · rw [if_pos hxy]
      refine List.pairwise_cons.mpr ⟨fun z hz => ?_, h⟩
      rcases List.mem_cons.mp hz with rfl | hz
      · exact hxy
      · exact le_trans hxy (hy z hz)
    · rw [if_neg hxy]
      refine List.pairwise_cons.mpr ⟨fun z hz => ?_, ih hys⟩
      rcases mem_insert_tick hz with rfl | hz
      · exact le_of_not_le hxy
      · exact hy z hz

theorem sort_ticks_pairwise (l : List (Int × Int)) :
    List.Pairwise (fun a b : Int × Int => a.1 ≤ b.1) (sort_ticks l) := by
  induction l with
  | nil => exact List.Pairwise.nil
  | cons x xs ih => exact insert_tick_pairwise ih

theorem mem_sort_ticks {p : Int × Int} :
    ∀ {l : List (Int × Int)}, p ∈ sort_ticks l → p ∈ l := by
  intro l
  induction l with
  | nil => exact fun h => h
  | cons x xs ih =>
    intro h
    rw [sort_ticks] at h
    rcases mem_insert_tick h with rfl | h
    · exact List.mem_cons_self _ _
    · exact List.mem_cons_of_mem _ (ih h)

theorem sum_dliq_insert_tick (x : Int × Int) (l : List (Int × Int)) :
    sum_dliq (insert_tick x l) = x.2 + sum_dliq l := by
  induction l with
  | nil => simp [insert_tick, sum_dliq]
  | cons y ys ih =>
    rw [insert_tick]
    by_cases hxy : x.1 ≤ y.1
    · rw [if_pos hxy]
      simp [sum_dliq]
    · rw [if_neg hxy]
      simp only [sum_dliq, List.map_cons, List.sum_cons] at ih ⊢
      rw [ih]
      ring

theorem sum_dliq_sort_ticks (l : List (Int × Int)) :
    sum_dliq (sort_ticks l) = sum_dliq l := by
  induction l with
  | nil => rfl
  | cons x xs ih =>
    rw [sort_ticks, sum_dliq_insert_tick, ih]
    simp [sum_dliq]

theorem emod_add_left_cancel (a b n : Int) : (a % n + b) % n = (a + b) % n := by
  conv_rhs => rw [Int.add_emod]
  rw [Int.add_emod (a % n) b, Int.emod_emod_of_dvd a dvd_rfl]

theorem liq_fold_spec :
    ∀ (l : List (Int × Int)),
      (∀ p ∈ l, min_signed_neg 128 ≤ p.2 ∧ p.2 ≤ max_signed_pos 128) →
      ∀ liq : Int, 0 ≤ liq → liq < two_pow 128 →
      liq_fold liq l = Except.ok ((liq + sum_dliq l) % two_pow 128, dist_entries liq l) := by
  intro l
  induction l with
  | nil =>
    intro _ liq h1 h2
    rw [liq_fold, dist_entries]
    rw [show sum_dliq [] = 0 from rfl, add_zero, Int.emod_eq_of_lt h1 h2]
  | cons p rest ih =>
    intro hmem liq h1 h2
    obtain ⟨t, d⟩ := p
    have hdr := hmem (t, d) (List.mem_cons_self _ _)
    have hsum : sum_dliq ((t, d) :: rest) = d + sum_dliq rest := by simp [sum_dliq]
    by_cases hd : d = 0
    · rw [liq_fold, if_pos hd, dist_entries, if_pos hd,
        ih (fun q hq => hmem q (List.mem_cons_of_mem _ hq)) liq h1 h2, hsum, hd, zero_add]
    · simp only [liq_fold, hd, ite_false, if_false,
        calc_liq_net_allow hdr.1 hdr.2, except_ok_bind,
        ih (fun q hq => hmem q (List.mem_cons_of_mem _ hq)) ((liq + d) % two_pow 128)
          (emod_two_pow_nonneg 128 _) (emod_two_pow_lt 128 _),
        dist_entries, hsum, emod_add_left_cancel, add_assoc]

/-- C4: the liquidity distribution is built by iterating the ticks in
ascending tick order, skipping zero deltas and recording the wrapped 128-bit
running total at every tick with a nonzero delta; the call succeeds with that
mapping exactly when the deltas net to zero modulo `2^128` (in particular
whenever they net to zero), and fails with the distribution error exactly
when the final running total is nonzero. -/
theorem c4_get_liq_dist (ticks : List (Int × Int))
    (h : ∀ p ∈ ticks, min_signed_neg 128 ≤ p.2 ∧ p.2 ≤ max_signed_pos 128) :
    List.Pairwise (fun a b : Int × Int => a.1 ≤ b.1) (sort_ticks ticks) ∧
    get_liq_dist ticks =
      (if sum_dliq ticks % two_pow 128 = 0
       then Except.ok (dist_entries 0 (sort_ticks ticks))
       else Except.error "DistributionDidNotNetToZero") := by
  refine ⟨sort_ticks_pairwise ticks, ?_⟩
  have hmem : ∀ p ∈ sort_ticks ticks,
      min_signed_neg 128 ≤ p.2 ∧ p.2 ≤ max_signed_pos 128 :=
    fun p hp => h p (mem_sort_ticks hp)
  have hfold := liq_fold_spec (sort_ticks ticks) hmem 0 le_rfl (two_pow_pos 128)
  simp only [get_liq_dist, hfold, except_ok_bind, zero_add, sum_dliq_sort_ticks]

set_option maxRecDepth 40000 in
/-- C4 witness: a two-tick map whose deltas net to zero succeeds with the running
totals recorded in ascending tick order. -/
theorem c4_get_liq_dist_witness :
    get_liq_dist [(5, -3), (2, 3)] = Except.ok [(2, 3), (5, 0)] := by
  have h := (c4_get_liq_dist [(5, -3), (2, 3)] (by
    intro p hp
    rw [min_signed_neg_eq 128 (by norm_num), max_signed_pos_eq 128 (by norm_num)]
    rcases List.mem_cons.mp hp with rfl | hp
    · norm_num
    · rcases List.mem_cons.mp hp with rfl | hp
      · norm_num
      · exact absurd hp (List.not_mem_nil p))).2
  rw [h]
  rfl
